import Mathlib

/-!
Verification development for the projection subsystem of a vega-lite style
chart compiler: the component resolution / merge engine
(src/compile/projection/parse.ts), the projection component
(src/compile/projection/component.ts), the name scope (NameMap in the model
module), the projection assembler (assemble module) and the geographic point
transform node (GeoPointNode).

JavaScript objects are embedded as association lists over an atomic value
type `JVal`; `deepEqual` on such values is structural equality, machine
floats never arise in the compared properties.  Fallible code paths
(assembly errors, pushing onto an undefined list) are embedded with
`Except`.
-/

set_option autoImplicit false

namespace VegaLite

/-- Atomic JSON-ish property values.  `sig s` stands for a signal reference
object `{signal: s}`.  Array and nested-object values act, under the deep
equality comparisons performed by the code modelled here, exactly like any
other opaque atom, so they are not given dedicated constructors. -/
inductive JVal where
  | null : JVal
  | str : String → JVal
  | num : Int → JVal
  | bool : Bool → JVal
  | sig : String → JVal
deriving DecidableEq, Repr

/-- A signal reference `{signal: ...}` as used for sizes and fit data. -/
structure SignalRef where
  signal : String
deriving DecidableEq, Repr

/-- A fit data reference: either a data source name or a signal reference
(`(string | SignalRef)[]` in component.ts). -/
inductive DataRef where
  | str : String → DataRef
  | sig : SignalRef → DataRef
deriving DecidableEq, Repr

/-- A JavaScript object, embedded as an association list; lookup takes the
first matching key. -/
abbrev Props := List (String × JVal)

/-- `hasOwnProperty(obj, prop)` from vega-util: the object has the key. -/
def hasOwnProp (ps : Props) (k : String) : Bool :=
  (ps.lookup k).isSome

/-- JavaScript object spread `{...a, ...b}`: keys of `b` win over keys of
`a`; the result is empty exactly when both sides are. -/
def spread (a b : Props) : Props :=
  a.filter (fun kv => (b.lookup kv.1).isNone) ++ b

/-- JavaScript string conversion of an embedded value (used when a value is
spliced into a template string or used as an object key). -/
def jvalToString : JVal → String
  | .null => "null"
  | .str s => s
  | .num n => toString n
  | .bool b => cond b "true" "false"
  | .sig _ => "[object Object]"

/-- String conversion of an optional value, as JavaScript would coerce a
possibly-undefined value used as an object key. -/
def jkey : Option JVal → String
  | some v => jvalToString v
  | none => "undefined"

/-- JavaScript truthiness of a possibly-undefined embedded value. -/
def jtruthy : Option JVal → Bool
  | none => false
  | some .null => false
  | some (.str s) => !(s == "")
  | some (.num n) => !(n == 0)
  | some (.bool b) => b
  | some (.sig _) => true

/-- Loose JavaScript comparison `v != null` for a possibly-absent property
value: true unless the property is absent or null. -/
def nonNull : Option JVal → Bool
  | none => false
  | some .null => false
  | some _ => true

/-! ### NameMap (model module)

The per-node logical-name → assigned-name scope.  The backing record is an
association list without duplicate keys (a JavaScript plain object). -/

/-- The backing record of a `NameMap`. -/
abbrev NameMap := List (String × String)

/-- Write `record[k] = v` on a plain object: overwrite the existing entry in
place, otherwise append a new one. -/
def recordSet {β : Type} : List (String × β) → String → β → List (String × β)
  | [], k, v => [(k, v)]
  | (k', v') :: rest, k, v =>
    if k' = k then (k, v) :: rest else (k', v') :: recordSet rest k v

/-- `NameMap.get`: `return this.map[key]` — `undefined` when unseeded. -/
def nmGet (m : NameMap) (k : String) : Option String :=
  m.lookup k

/-- `NameMap.has`: `return key in this.map`. -/
def nmHas (m : NameMap) (k : String) : Bool :=
  (m.lookup k).isSome

/-- `NameMap.set`: `this.map[key] = value`. -/
def nmSet (m : NameMap) (k v : String) : NameMap :=
  recordSet m k v

/-- `NameMap.rename`: `if (this.map[oldName]) { this.map[oldName] = newName; }`.
The guard is JavaScript truthiness of the stored string, so an unregistered
(or empty-string) entry is left untouched. -/
def nmRename (m : NameMap) (oldName newName : String) : NameMap :=
  match m.lookup oldName with
  | some v => if v = "" then m else recordSet m oldName newName
  | none => m

/-! ### ProjectionComponent (component.ts) and the Split layers

`ProjectionComponent extends Split`.  The `Split` base class itself
(src/compile/split.ts) is not part of the sources at hand; its layer
behaviour is modelled from the spec. -/

/-- The projection component: the two `Split` layers plus the constructor
parameters `specifiedProjection`, `size`, `data` and the `merged` flag. -/
structure ProjectionComponent where
  explicit : Props
  implicit : Props
  specifiedProjection : Props
  size : Option (List SignalRef)
  data : Option (List DataRef)
  merged : Bool
deriving DecidableEq, Repr

namespace ProjectionComponent

/-- Modelled from the spec: `Split.get(key)` (split.ts is not among the
given sources) returns the explicit layer's value if present, else the
implicit layer's. -/
def get (p : ProjectionComponent) (k : String) : Option JVal :=
  (p.explicit.lookup k).orElse (fun _ => p.implicit.lookup k)

/-- Modelled from the spec: `Split.set(key, value, explicit)` (split.ts is
not among the given sources) writes into the layer selected by the flag. -/
def set (p : ProjectionComponent) (k : String) (v : JVal) (explicitFlag : Bool) :
    ProjectionComponent :=
  if explicitFlag then { p with explicit := recordSet p.explicit k v }
  else { p with implicit := recordSet p.implicit k v }

/-- Modelled from the spec: `Split.combine()` (split.ts is not among the
given sources) flattens the two layers into one object, explicit values
winning. -/
def combine (p : ProjectionComponent) : Props :=
  spread p.implicit p.explicit

/-- The `ProjectionComponent` constructor: explicit layer is a copy of the
specified projection, implicit layer starts as `{name}`. -/
def make (name : String) (specified : Props) (size : Option (List SignalRef))
    (data : Option (List DataRef)) : ProjectionComponent :=
  { explicit := specified
    implicit := [("name", JVal.str name)]
    specifiedProjection := specified
    size := size
    data := data
    merged := false }

/-- `get isFit() { return !!this.data; }` — any array, even an empty one, is
truthy in JavaScript. -/
def isFit (p : ProjectionComponent) : Bool :=
  p.data.isSome

end ProjectionComponent

/-- `PROJECTION_PROPERTIES` — the fixed property set consulted by the merge
(projection module). -/
def PROJECTION_PROPERTIES : List String :=
  ["type", "clipAngle", "clipExtent", "center", "rotate", "precision",
   "reflectX", "reflectY", "coefficient", "distance", "fraction", "lobes",
   "parallel", "radius", "ratio", "spacing", "tilt"]

/-! ### mergeIfNoConflict (parse.ts) -/

/-- The `allPropertiesShared` reduction inside `mergeIfNoConflict`: every
fixed projection property is either owned by neither explicit layer, or
owned by both with deeply equal `get` values. -/
def allPropertiesShared (first second : ProjectionComponent) : Bool :=
  PROJECTION_PROPERTIES.all fun prop =>
    (!(hasOwnProp first.explicit prop) && !(hasOwnProp second.explicit prop)) ||
    (hasOwnProp first.explicit prop && hasOwnProp second.explicit prop &&
      decide (first.get prop = second.get prop))

/-- `mergeIfNoConflict(first, second)`: on deeply equal sizes return `first`
when all fixed properties are shared, else the other component when one
side's explicit layer is the empty object; otherwise (or on unequal sizes)
return null. -/
def mergeIfNoConflict (first second : ProjectionComponent) :
    Option ProjectionComponent :=
  let size := decide (first.size = second.size)
  if size then
    if allPropertiesShared first second then some first
    else if decide (first.explicit = []) then some second
    else if decide (second.explicit = []) then some first
    else none
  else none

/-! ### Unit model abstraction and parseUnitProjection (parse.ts, unit.ts) -/

/-- The geographic part of a unit model's encoding, reduced to the predicates
the projection code consults: whether each geo position channel carries a
field-or-datum definition, and whether the shape channel carries a
GeoJSON-typed field. -/
structure GeoEncoding where
  longitude : Bool
  latitude : Bool
  longitude2 : Bool
  latitude2 : Bool
  shapeGeojson : Bool
deriving DecidableEq, Repr

/-- The slice of a `UnitModel` read by `parseUnitProjection` and
`gatherFitData`. -/
structure UnitModelP where
  name : String
  isGeoshape : Bool
  encoding : GeoEncoding
  specifiedProjection : Option Props
  configProjection : Props
deriving DecidableEq, Repr

/-- `Model.getName(text)`: prefix with the model name.  The identifier
sanitizer `varName` is an external collaborator and is modelled as the
identity on the already-safe names that arise here. -/
def getName (base text : String) : String :=
  (if base = "" then "" else base ++ "_") ++ text

/-- `UnitModel.hasProjection`: a geoshape mark, or some geo position channel
with a field-or-datum definition. -/
def UnitModelP.hasProjection (m : UnitModelP) : Bool :=
  m.isGeoshape || m.encoding.longitude || m.encoding.latitude ||
    m.encoding.longitude2 || m.encoding.latitude2

/-- `gatherFitData(model)`: a geojson signal for each populated coordinate
pair and for a GeoJSON shape channel, falling back to the main data source
name when none applies.  (`requestDataName` also bumps a reference count on
the data component; that bookkeeping is outside this model.) -/
def gatherFitData (m : UnitModelP) : List DataRef :=
  let data : List DataRef := []
  let data := if m.encoding.longitude || m.encoding.latitude then
      data ++ [DataRef.sig ⟨getName m.name ("geojson_" ++ toString data.length)⟩]
    else data
  let data := if m.encoding.longitude2 || m.encoding.latitude2 then
      data ++ [DataRef.sig ⟨getName m.name ("geojson_" ++ toString data.length)⟩]
    else data
  let data := if m.encoding.shapeGeojson then
      data ++ [DataRef.sig ⟨getName m.name ("geojson_" ++ toString data.length)⟩]
    else data
  if data.length == 0 then [DataRef.str (getName m.name "main")] else data

/-- `parseUnitProjection(model)`.  `replaceExprRef` rewrites expression
references into signal references and is modelled as the identity (no
expression references arise in this value model).  Fit is disabled as soon
as the specified projection carries a non-null `scale` or `translate`; the
size signals are the view's width/height signals. -/
def parseUnitProjection (m : UnitModelP) : Option ProjectionComponent :=
  if m.hasProjection then
    let proj := m.specifiedProjection
    let fit := !(match proj with
      | some p => nonNull (p.lookup "scale") || nonNull (p.lookup "translate")
      | none => false)
    let size := if fit then
        some [SignalRef.mk (getName m.name "width"), SignalRef.mk (getName m.name "height")]
      else none
    let data := if fit then some (gatherFitData m) else none
    let projComp := ProjectionComponent.make (getName m.name "projection")
      (spread m.configProjection (proj.getD [])) size data
    let projComp := if !(jtruthy (projComp.get "type")) then
        projComp.set "type" (JVal.str "equalEarth") false
      else projComp
    some projComp
  else none

/-! ### parseNonUnitProjections (parse.ts)

The composite step runs after every child has parsed its own projections
(the recursive `parseProjection(child)` calls); the model below therefore
takes the children's already-parsed state as input. -/

/-- The slice of a child model visible to the composite projection step: its
parsed projection component and its projection name scope. -/
structure Child where
  projection : Option ProjectionComponent
  projectionNameMap : NameMap
deriving DecidableEq, Repr

/-- The `every`-based reduction over the children's components: skip absent
components, adopt the first one present, then merge pairwise; the first
failed merge short-circuits with `mergable = false`. -/
def reduceProjections :
    Option ProjectionComponent → List (Option ProjectionComponent) →
    Option ProjectionComponent × Bool
  | acc, [] => (acc, true)
  | acc, none :: rest => reduceProjections acc rest
  | acc, some p :: rest =>
    match acc with
    | none => reduceProjections (some p) rest
    | some np =>
      match mergeIfNoConflict np p with
      | some m => reduceProjections (some m) rest
      | none => (some np, false)

/-- Modelled from the spec: `duplicate` (util.ts is not among the given
sources) deep-copies a value, which on immutable embedded values is the
identity. -/
def duplicate {α : Type} (x : α) : α := x

/-- The per-child body of the promotion loop, acting on one child's state:
rename the child's projection reference to the composite name, then flag
the component merged. -/
def promoteChild (name : String) (c : Child) : Child :=
  match c.projection with
  | none => c
  | some p =>
    { c with
      projectionNameMap := nmRename c.projectionNameMap (jkey (p.get "name")) name
      projection := some { p with merged := true } }

/-- The fit-data push of the promotion loop for one child component:
`modelProjection.data.push(...child.component.projection.data)` when the
child is fit, a no-op otherwise; a push onto an undefined list is the
JavaScript `TypeError` this embedding surfaces as an error. -/
def pushFitData (p : ProjectionComponent) (d : Option (List DataRef)) :
    Except String (Option (List DataRef)) :=
  if p.isFit then
    match d with
    | some xs => Except.ok (some (xs ++ p.data.getD []))
    | none => Except.error "TypeError: cannot push onto undefined data"
  else Except.ok d

/-- The promotion loop of `parseNonUnitProjections`: thread the promoted
component's data list over the children, appending each fit child's data,
and update each child with a projection via `promoteChild`. -/
def promoteLoop (name : String) :
    Option (List DataRef) → List Child →
    Except String (Option (List DataRef) × List Child)
  | d, [] => Except.ok (d, [])
  | d, c :: rest =>
    match c.projection with
    | none =>
      (promoteLoop name d rest).map fun r => (r.1, c :: r.2)
    | some p =>
      match pushFitData p d with
      | Except.error e => Except.error e
      | Except.ok d' =>
        (promoteLoop name d' rest).map fun r =>
          (r.1, promoteChild name c :: r.2)

/-- `parseNonUnitProjections(model)`: reduce the children's components; when
a component was adopted and every merge succeeded, promote it as a new
component named for the composite (`model.projectionName(true)` is the
`name` argument), seeded with `duplicate(nonUnitProjection.data)`, then run
the rename/flag loop over the children; otherwise leave the children
untouched and give the composite no shared component. -/
def parseNonUnitProjections (name : String) (children : List Child) :
    Except String (Option ProjectionComponent × List Child) :=
  if children.length == 0 then Except.ok (none, children)
  else
    match reduceProjections none (children.map Child.projection) with
    | (some np, true) =>
      match promoteLoop name (duplicate np.data) children with
      | Except.error e => Except.error e
      | Except.ok (d, ch) =>
        Except.ok (some (ProjectionComponent.make name np.specifiedProjection np.size d), ch)
    | _ => Except.ok (none, children)

/-- The fit-data contribution of a child as the spec describes promotion:
the child's own data list when its component is fit-enabled, nothing
otherwise. -/
def fitDataOf (c : Child) : List DataRef :=
  match c.projection with
  | some p => if p.isFit then p.data.getD [] else []
  | none => []

/-! ### The promotion loop as a trace of primitive child-state operations

To state the temporal ordering of the promotion loop (rename issued before
the merged flag is set, per child, in child order) the loop's child-state
effects are also given as an explicit operation list. -/

/-- One primitive child-state effect of the promotion loop, addressed to the
child at a position. -/
inductive PromoteOp where
  | renameOp (child : Nat) (oldName newName : String)
  | setMergedOp (child : Nat)
deriving DecidableEq, Repr

/-- The position a promotion operation addresses. -/
def PromoteOp.child : PromoteOp → Nat
  | .renameOp i _ _ => i
  | .setMergedOp i => i

/-- The operation trace of the promotion loop on the children at positions
`n, n+1, ...`: for each child with a component, first its rename, then its
merged flag. -/
def promoteOpsFrom (name : String) : Nat → List Child → List PromoteOp
  | _, [] => []
  | n, c :: rest =>
    (match c.projection with
     | none => []
     | some p => [PromoteOp.renameOp n (jkey (p.get "name")) name,
                  PromoteOp.setMergedOp n]) ++ promoteOpsFrom name (n + 1) rest

/-- The operation trace of the promotion loop over all children. -/
def promoteOps (name : String) (children : List Child) : List PromoteOp :=
  promoteOpsFrom name 0 children

/-- Apply a function to the element at a position of a list, if any. -/
def modifyAt {α : Type} (f : α → α) : Nat → List α → List α
  | _, [] => []
  | 0, x :: xs => f x :: xs
  | n + 1, x :: xs => x :: modifyAt f n xs

/-- The effect of one promotion operation on the children's states. -/
def applyOp (children : List Child) : PromoteOp → List Child
  | .renameOp i oldName newName =>
    modifyAt (fun c => { c with
      projectionNameMap := nmRename c.projectionNameMap oldName newName }) i children
  | .setMergedOp i =>
    modifyAt (fun c => { c with
      projection := c.projection.map (fun p => { p with merged := true }) }) i children

/-- The effect of a promotion operation trace on the children's states. -/
def applyOps (children : List Child) (ops : List PromoteOp) : List Child :=
  ops.foldl applyOp children

/-! ### Projection assembly (assemble module) -/

/-- An entry of the output `projections` array, with the fields this model
tracks: the required name, the optional fit-mode `size` and `fit` signals,
and the remaining spread properties in object order. -/
structure VgProjection where
  name : String
  size : Option SignalRef := none
  fit : Option SignalRef := none
  entries : Props := []
deriving DecidableEq, Repr

/-- The source expression of one fit datum: a signal's expression verbatim,
or a `data(...)` call on the looked-up concrete source name.
(`model.lookupDataSource` is passed in as `lookup`.) -/
def fitSource (lookup : String → String) : DataRef → String
  | .sig r => r.signal
  | .str n => "data('" ++ lookup n ++ "')"

/-- One step of the fit-source reduction: keep the source only if it is not
already present. -/
def dedupStep (sources : List String) (source : String) : List String :=
  if sources.contains source then sources else sources ++ [source]

/-- The fit-source reduction of `assembleProjectionForModel`: the source
expressions with later duplicates dropped. -/
def dedupSources (sources : List String) : List String :=
  sources.foldl dedupStep []

/-- The fit expression: a lone source unbracketed, several sources joined by
a comma and a space inside square brackets. -/
def fitExpr (fits : List String) : String :=
  if fits.length > 1 then "[" ++ String.intercalate ", " fits ++ "]"
  else fits.headD ""

/-- `assembleProjectionForModel(model)` on the model's projection component:
nothing for an absent or merged component; a centre-translated custom
projection when `data` is undefined; otherwise the fit projection with the
bracket-joined size signal and the deduplicated fit expression, which must
name at least one source. -/
def assembleProjectionForModel (lookup : String → String)
    (component : Option ProjectionComponent) : Except String (List VgProjection) :=
  match component with
  | none => Except.ok []
  | some comp =>
    if comp.merged then Except.ok []
    else
      let projection := comp.combine
      let name := jkey (projection.lookup "name")
      match comp.data with
      | none =>
        Except.ok [{ name := name
                     entries := spread [("translate", JVal.sig "[width / 2, height / 2]")]
                       projection }]
      | some data =>
        let size : SignalRef :=
          ⟨"[" ++ String.intercalate ", " ((comp.size.getD []).map SignalRef.signal) ++ "]"⟩
        let fits := dedupSources (data.map (fitSource lookup))
        if fits.length ≤ 0 then
          Except.error "Projection fit did not find any data sources"
        else
          Except.ok [{ name := name
                       size := some size
                       fit := some ⟨fitExpr fits⟩
                       entries := projection }]

/-! ### GeoPointNode (geopoint module) and the model state it reads -/

/-- A channel definition on a geo position channel, as the geopoint parser
distinguishes them. -/
inductive ChannelDef where
  | fieldDef (field : String)
  | datumDef (datum : JVal)
  | valueDef (value : JVal)
  | absent
deriving DecidableEq, Repr

/-- `getFieldOrDatumDef`: the definition itself when it is a field or datum
definition, undefined otherwise. -/
def getFieldOrDatumDef : ChannelDef → Option ChannelDef
  | .fieldDef f => some (.fieldDef f)
  | .datumDef d => some (.datumDef d)
  | _ => none

/-- An entry of a geopoint transform's `fields` pair: a field name or an
expression reference. -/
inductive GeoFieldRef where
  | fieldName (f : String)
  | expr (e : String)
deriving DecidableEq, Repr

/-- The coordinate-pair entry built for one channel: a field definition
contributes its field name, a datum definition an expression reference,
anything else is undefined.  (The dead `isValueDef` arm of the source
cannot fire, since `getFieldOrDatumDef` never returns a value definition.) -/
def toGeoFieldRef (cd : ChannelDef) : Option GeoFieldRef :=
  match getFieldOrDatumDef cd with
  | some (.fieldDef f) => some (.fieldName f)
  | some (.datumDef d) => some (.expr (jvalToString d))
  | _ => none

/-- The geo position channels of a unit model's encoding, for the geopoint
parser. -/
structure GeoPointEncoding where
  longitude : ChannelDef
  latitude : ChannelDef
  longitude2 : ChannelDef
  latitude2 : ChannelDef
deriving DecidableEq, Repr

/-- The slice of a model's state that `projectionName()` (the non-parse
variant) reads: the model name, the parsed component, and the projection
name scope. -/
structure MState where
  name : String
  projection : Option ProjectionComponent
  projectionNameMap : NameMap
deriving DecidableEq, Repr

/-- `Model.projectionName()` outside the parse phase: when the model owns a
live component or the scope knows the logical name, answer the scope's
current mapping (possibly undefined if unseeded); otherwise undefined. -/
def projectionNameLookup (m : MState) : Option String :=
  if (match m.projection with
      | some p => !p.merged
      | none => false) || nmHas m.projectionNameMap (getName m.name "projection")
  then nmGet m.projectionNameMap (getName m.name "projection")
  else none

/-- A geographic point transform node: the projection name, coordinate field
pair and output field names fixed by its constructor. -/
structure GeoPointNode where
  projection : String
  fields : List (Option GeoFieldRef)
  «as» : List String
deriving DecidableEq, Repr

/-- The assembled `geopoint` transform descriptor. -/
structure VgGeoPointTransform where
  type : String
  projection : String
  fields : List (Option GeoFieldRef)
  «as» : List String
deriving DecidableEq, Repr

/-- `GeoPointNode.assemble()`: emit the constructor-stored projection name,
fields and output names. -/
def GeoPointNode.assemble (n : GeoPointNode) : VgGeoPointTransform :=
  { type := "geopoint", projection := n.projection, fields := n.fields, «as» := n.«as» }

/-- `GeoPointNode.parseAll(parent, model)`, reduced to the list of nodes it
constructs (in construction order): nothing when `model.projectionName()`
is falsy; otherwise one node per populated coordinate pair, the secondary
pair suffixed with `2`, each node storing the projection name the scope
yields now. -/
def GeoPointNode.parseAllNodes (m : MState) (enc : GeoPointEncoding) :
    List GeoPointNode :=
  match projectionNameLookup m with
  | none => []
  | some projName =>
    if projName = "" then []
    else
      let mkNodes := fun (c1 c2 : ChannelDef) (suffix : String) =>
        let pair := [toGeoFieldRef c1, toGeoFieldRef c2]
        if (pair.headD none).isSome || ((pair.getD 1 none).isSome) then
          [GeoPointNode.mk projName pair
            [getName m.name ("x" ++ suffix), getName m.name ("y" ++ suffix)]]
        else []
      mkNodes enc.longitude enc.latitude "" ++ mkNodes enc.longitude2 enc.latitude2 "2"

/-! ### Helper lemmas -/

theorem lookup_recordSet_self {β : Type} (m : List (String × β)) (k : String) (v : β) :
    (recordSet m k v).lookup k = some v := by
  induction m with
  | nil => simp [recordSet]
  | cons hd tl ih =>
    obtain ⟨k', v'⟩ := hd
    by_cases h : k' = k
    · subst h; simp [recordSet]
    · have hbeq : (k == k') = false := by simp [Ne.symm h]
      simp [recordSet, h, List.lookup, hbeq, ih]

theorem recordSet_idem {β : Type} (m : List (String × β)) (k : String) (v : β) :
    recordSet (recordSet m k v) k v = recordSet m k v := by
  induction m with
  | nil => simp [recordSet]
  | cons hd tl ih =>
    obtain ⟨k', v'⟩ := hd
    by_cases h : k' = k
    · subst h; simp [recordSet]
    · simp [recordSet, h, ih]

theorem ProjectionComponent.set_size (p : ProjectionComponent) (k : String) (v : JVal)
    (e : Bool) : (p.set k v e).size = p.size := by
  unfold ProjectionComponent.set; split <;> rfl

theorem ProjectionComponent.set_data (p : ProjectionComponent) (k : String) (v : JVal)
    (e : Bool) : (p.set k v e).data = p.data := by
  unfold ProjectionComponent.set; split <;> rfl

/-! ### Claim theorems -/

/-- Claim C9: on every `NameMap` the rename operation is idempotent,
renaming a never-registered name leaves the map unchanged, and `get` on an
unseeded name returns undefined. -/
theorem nameMap_rename_idempotent_and_unregistered_noop :
    ∀ (m : NameMap) (a b : String),
    nmRename (nmRename m a b) a b = nmRename m a b ∧
    (m.lookup a = none → nmRename m a b = m) ∧
    (m.lookup a = none → nmGet m a = none) := by
  intro m a b
  refine ⟨?_, ?_, ?_⟩
  · cases h : m.lookup a with
    | none => unfold nmRename; simp [h]
    | some v =>
      by_cases hv : v = ""
      · unfold nmRename; simp [h, hv]
      · have h1 : nmRename m a b = recordSet m a b := by
          unfold nmRename; simp [h, hv]
        rw [h1]
        unfold nmRename
        rw [lookup_recordSet_self]
        by_cases hb : b = ""
        · simp [hb]
        · simp [hb, recordSet_idem]
  · intro h; unfold nmRename; simp [h]
  · intro h; unfold nmGet; exact h

/-- Witness for C9 at a concrete map: renaming a name that was never
registered is a no-op. -/
theorem nameMap_rename_unregistered_noop_witness :
    nmRename [("x", "x")] "z" "w" = [("x", "x")] :=
  (nameMap_rename_idempotent_and_unregistered_noop [("x", "x")] "z" "w").2.1 rfl

/-- Claim C3: a unit model with a projection whose specified projection bag
carries a non-null `scale` or a non-null `translate` parses to a component
that is not auto-fit: both its size and its data list are left undefined,
whatever the encoding contains. -/
theorem parseUnitProjection_scale_translate_disable_fit :
    ∀ (m : UnitModelP) (p : Props),
    m.hasProjection = true →
    m.specifiedProjection = some p →
    (nonNull (p.lookup "scale") || nonNull (p.lookup "translate")) = true →
    ∃ comp, parseUnitProjection m = some comp ∧ comp.size = none ∧ comp.data = none := by
  intro m p hproj hspec hnn
  unfold parseUnitProjection
  rw [hspec]
  simp only [hproj, hnn, Bool.not_true, if_true, Bool.false_eq_true, if_false]
  split
  · exact ⟨_, rfl,
      by simp [ProjectionComponent.set_size, ProjectionComponent.make],
      by simp [ProjectionComponent.set_data, ProjectionComponent.make]⟩
  · exact ⟨_, rfl, rfl, rfl⟩

/-- Witness for C3: a geoshape view with every fit-eligible geographic field
present but an explicit scale still parses with undefined size and data. -/
theorem parseUnitProjection_scale_disables_fit_witness :
    ∃ comp,
      parseUnitProjection
        { name := "view"
          isGeoshape := true
          encoding := { longitude := true, latitude := true, longitude2 := true,
                        latitude2 := true, shapeGeojson := true }
          specifiedProjection := some [("scale", JVal.num 500)]
          configProjection := [] } = some comp ∧
      comp.size = none ∧ comp.data = none :=
  parseUnitProjection_scale_translate_disable_fit _ [("scale", JVal.num 500)]
    (by decide) rfl (by decide)

/-- The success condition of `mergeIfNoConflict` exactly as the spec states
it (for comparison with the implementation): every fixed projection property
is contained in neither explicit layer or in both with deeply equal values,
and the sizes are deeply equal. -/
def specMergeSuccess (A B : ProjectionComponent) : Bool :=
  (PROJECTION_PROPERTIES.all fun prop =>
    ((A.explicit.lookup prop).isNone && (B.explicit.lookup prop).isNone) ||
    ((A.explicit.lookup prop).isSome && (B.explicit.lookup prop).isSome &&
      decide (A.explicit.lookup prop = B.explicit.lookup prop))) &&
  decide (A.size = B.size)

/-- A component with no explicit properties. -/
def mergeExBlank : ProjectionComponent :=
  ProjectionComponent.make "child_0_projection" [] none none

/-- A component with one explicit fixed property. -/
def mergeExTyped : ProjectionComponent :=
  ProjectionComponent.make "child_1_projection" [("type", JVal.str "albers")] none none

/-- Counterexample for C1: when one side's explicit layer is empty and the
other explicitly sets a fixed property, the spec's success condition fails
yet `mergeIfNoConflict` still returns a (non-null) representative — the
claimed iff does not hold. -/
theorem mergeIfNoConflict_claim_counterexample :
    (mergeIfNoConflict mergeExBlank mergeExTyped).isSome = true ∧
    mergeIfNoConflict mergeExBlank mergeExTyped = some mergeExTyped ∧
    specMergeSuccess mergeExBlank mergeExTyped = false := by
  refine ⟨?_, ?_, ?_⟩ <;> decide

/-- Claim C1, amended: `mergeIfNoConflict(A, B)` returns a non-null
component iff the sizes are deeply equal and (all fixed properties are
shared, or one of the two explicit layers is the empty object); on success
it returns `A` when all fixed properties are shared, otherwise `B` when
`A`'s explicit layer is empty, otherwise `A`. -/
theorem mergeIfNoConflict_success_characterization :
    ∀ A B : ProjectionComponent,
    ((mergeIfNoConflict A B).isSome ↔
      A.size = B.size ∧
        (allPropertiesShared A B = true ∨ A.explicit = [] ∨ B.explicit = [])) ∧
    (A.size = B.size → allPropertiesShared A B = true →
      mergeIfNoConflict A B = some A) ∧
    (A.size = B.size → allPropertiesShared A B = false → A.explicit = [] →
      mergeIfNoConflict A B = some B) ∧
    (A.size = B.size → allPropertiesShared A B = false → A.explicit ≠ [] →
      B.explicit = [] → mergeIfNoConflict A B = some A) := by
  intro A B
  by_cases hs : A.size = B.size
  · by_cases hall : allPropertiesShared A B = true
    · simp [mergeIfNoConflict, hs, hall]
    · by_cases hA : A.explicit = []
      · simp [mergeIfNoConflict, hs, hall, hA]
      · by_cases hB : B.explicit = []
        · simp [mergeIfNoConflict, hs, hall, hA, hB]
        · simp [mergeIfNoConflict, hs, hall, hA, hB]
  · simp [mergeIfNoConflict, hs]

/-- Witness for C1 (amended) at concrete components: two components sharing
the same explicit type merge to the first. -/
theorem mergeIfNoConflict_success_witness :
    mergeIfNoConflict mergeExTyped mergeExTyped = some mergeExTyped :=
  (mergeIfNoConflict_success_characterization mergeExTyped mergeExTyped).2.1
    rfl (by decide)

/-- Claim C4: when the pairwise merge reduction over the children fails, the
composite step returns no shared component, leaves every child exactly as
it was (no rename, no merged flag), and raises no error. -/
theorem parseNonUnitProjections_merge_failure_benign :
    ∀ (name : String) (children : List Child) (acc : Option ProjectionComponent),
    reduceProjections none (children.map Child.projection) = (acc, false) →
    parseNonUnitProjections name children = Except.ok (none, children) := by
  intro name children acc h
  cases children with
  | nil => simp [reduceProjections] at h
  | cons c rest =>
    unfold parseNonUnitProjections
    rw [h]
    cases acc <;> simp

/-- A child bearing a fit component with explicit type `albers`. -/
def conflictChildA : Child :=
  { projection := some (ProjectionComponent.make "child_0_projection"
      [("type", JVal.str "albers")] (some [⟨"w"⟩, ⟨"h"⟩]) (some []))
    projectionNameMap := [("child_0_projection", "child_0_projection")] }

/-- A child bearing a fit component with explicit type `mercator`. -/
def conflictChildB : Child :=
  { projection := some (ProjectionComponent.make "child_1_projection"
      [("type", JVal.str "mercator")] (some [⟨"w"⟩, ⟨"h"⟩]) (some []))
    projectionNameMap := [("child_1_projection", "child_1_projection")] }

/-- Witness for C4: two children with conflicting explicit types fail to
merge; the composite gets nothing and both children are returned
unchanged. -/
theorem parseNonUnitProjections_merge_failure_witness :
    parseNonUnitProjections "parent_projection" [conflictChildA, conflictChildB] =
      Except.ok (none, [conflictChildA, conflictChildB]) :=
  parseNonUnitProjections_merge_failure_benign "parent_projection"
    [conflictChildA, conflictChildB] (conflictChildA.projection) (by decide)

theorem mem_foldl_dedupStep (l acc : List String) (x : String) :
    x ∈ l.foldl dedupStep acc ↔ x ∈ acc ∨ x ∈ l := by
  induction l generalizing acc with
  | nil => simp
  | cons s rest ih =>
    rw [List.foldl_cons, ih]
    unfold dedupStep
    split
    · next hmem =>
      have hs : s ∈ acc := by simpa using hmem
      simp only [List.mem_cons]
      constructor
      · rintro (h | h)
        · exact Or.inl h
        · exact Or.inr (Or.inr h)
      · rintro (h | h | h)
        · exact Or.inl h
        · exact Or.inl (h ▸ hs)
        · exact Or.inr h
    · simp only [List.mem_append, List.mem_singleton, List.mem_cons]
      tauto

theorem mem_dedupSources (l : List String) (x : String) :
    x ∈ dedupSources l ↔ x ∈ l := by
  unfold dedupSources
  rw [mem_foldl_dedupStep]
  simp

theorem dedupSources_ne_nil (l : List String) (h : l ≠ []) :
    dedupSources l ≠ [] := by
  intro hnil
  obtain ⟨x, hx⟩ := List.exists_mem_of_ne_nil l h
  have : x ∈ dedupSources l := (mem_dedupSources l x).mpr hx
  rw [hnil] at this
  exact List.not_mem_nil _ this

/-- Claim C6: for a live fit-enabled component, the emitted fit expression
is the single source expression unbracketed when the deduplicated source
list has exactly one entry, and the sources joined by a comma and a space
inside square brackets when there are two or more. -/
theorem assembleProjection_fit_expression :
    ∀ (lookup : String → String) (comp : ProjectionComponent) (l : List DataRef),
    comp.merged = false → comp.data = some l →
    ((∀ s, dedupSources (l.map (fitSource lookup)) = [s] →
      ∃ p, assembleProjectionForModel lookup (some comp) = Except.ok [p] ∧
        p.fit = some ⟨s⟩) ∧
     (∀ s t rest, dedupSources (l.map (fitSource lookup)) = s :: t :: rest →
      ∃ p, assembleProjectionForModel lookup (some comp) = Except.ok [p] ∧
        p.fit = some ⟨"[" ++ String.intercalate ", " (s :: t :: rest) ++ "]"⟩)) := by
  intro lookup comp l hm hd
  constructor
  · intro s hfits
    unfold assembleProjectionForModel
    simp only [hm, hd, Bool.false_eq_true, if_false]
    rw [hfits]
    exact ⟨_, rfl, by simp [fitExpr]⟩
  · intro s t rest hfits
    unfold assembleProjectionForModel
    simp only [hm, hd, Bool.false_eq_true, if_false]
    rw [hfits]
    rw [if_neg (by simp)]
    exact ⟨_, rfl, by simp [fitExpr]⟩

/-- A live fit component whose two data references resolve to the data
sources `a` and `b`. -/
def fitExprExComp : ProjectionComponent :=
  ProjectionComponent.make "view_projection" []
    (some [⟨"view_width"⟩, ⟨"view_height"⟩])
    (some [DataRef.str "a", DataRef.str "b"])

/-- Witness for C6: two sources assemble to the bracketed, comma-and-space
joined fit expression. -/
theorem assembleProjection_fit_expression_witness :
    ∃ p, assembleProjectionForModel id (some fitExprExComp) = Except.ok [p] ∧
      p.fit = some ⟨"[" ++ String.intercalate ", " ["data('a')", "data('b')"] ++ "]"⟩ :=
  (assembleProjection_fit_expression id fitExprExComp
      [DataRef.str "a", DataRef.str "b"] rfl rfl).2
    "data('a')" "data('b')" [] (by decide)

/-- Claim C7: assembling a component raises the (fatal) fit-source error
exactly when the component is live and fit-enabled with an empty fit-source
list; and the resolve phase never produces an empty fit list on its own —
`gatherFitData` always supplies at least one source (falling back to the
main dataset), so the missing-source condition surfaces only at assembly. -/
theorem assembleProjection_error_iff_no_fit_sources :
    (∀ (lookup : String → String) (comp : ProjectionComponent),
      (∃ e, assembleProjectionForModel lookup (some comp) = Except.error e) ↔
      (comp.merged = false ∧ comp.data = some [])) ∧
    (∀ m : UnitModelP, gatherFitData m ≠ []) := by
  constructor
  · intro lookup comp
    constructor
    · rintro ⟨e, he⟩
      by_cases hm : comp.merged
      · unfold assembleProjectionForModel at he
        simp [hm] at he
      · cases hd : comp.data with
        | none =>
          unfold assembleProjectionForModel at he
          simp [hm, hd] at he
        | some l =>
          cases l with
          | nil => exact ⟨by simpa using hm, rfl⟩
          | cons x xs =>
            exfalso
            unfold assembleProjectionForModel at he
            simp only [hm, hd, Bool.false_eq_true, if_false] at he
            have hpos : 0 < (dedupSources ((x :: xs).map (fitSource lookup))).length :=
              List.length_pos.mpr (dedupSources_ne_nil _ (by simp))
            rw [if_neg (by omega)] at he
            exact Except.noConfusion he
    · rintro ⟨hm, hd⟩
      unfold assembleProjectionForModel
      simp only [hm, hd, Bool.false_eq_true, if_false]
      exact ⟨_, rfl⟩
  · intro m
    obtain ⟨name, geo, enc, sp, cfg⟩ := m
    obtain ⟨lon, lat, lon2, lat2, shape⟩ := enc
    cases lon <;> cases lat <;> cases lon2 <;> cases lat2 <;> cases shape <;>
      simp [gatherFitData]

/-- Witness for C7: a live component whose data list is empty makes
assembly fail. -/
theorem assembleProjection_error_witness :
    ∃ e, assembleProjectionForModel id
      (some (ProjectionComponent.make "view_projection" []
        (some [⟨"view_width"⟩, ⟨"view_height"⟩]) (some []))) = Except.error e :=
  ((assembleProjection_error_iff_no_fit_sources).1 id
      (ProjectionComponent.make "view_projection" []
        (some [⟨"view_width"⟩, ⟨"view_height"⟩]) (some []))).mpr ⟨rfl, rfl⟩

theorem promoteLoop_some (name : String) :
    ∀ (children : List Child) (d : List DataRef),
    promoteLoop name (some d) children =
      Except.ok (some (d ++ (children.map fitDataOf).flatten),
        children.map (promoteChild name)) := by
  intro children
  induction children with
  | nil => intro d; simp [promoteLoop]
  | cons c rest ih =>
    intro d
    cases hc : c.projection with
    | none =>
      simp [promoteLoop, hc, ih, fitDataOf, promoteChild, Except.map]
    | some p =>
      cases hp : p.data with
      | none =>
        simp [promoteLoop, hc, hp, pushFitData, ProjectionComponent.isFit, ih, fitDataOf, Except.map]
      | some ys =>
        simp [promoteLoop, hc, hp, pushFitData, ProjectionComponent.isFit, ih, fitDataOf, Except.map]

/-- Claim C2, amended: when the merge reduction succeeds with representative
`np` whose data list is defined, the promoted component's data list is the
representative's list followed by the concatenation, in child order, of the
fit-enabled children's lists — the representative, being one of those
children's components, is counted twice. -/
theorem parseNonUnitProjections_promoted_data :
    ∀ (name : String) (children : List Child) (np : ProjectionComponent)
      (l : List DataRef),
    reduceProjections none (children.map Child.projection) = (some np, true) →
    np.data = some l →
    ∃ comp ch, parseNonUnitProjections name children = Except.ok (some comp, ch) ∧
      comp.data = some (l ++ (children.map fitDataOf).flatten) := by
  intro name children np l hred hdata
  cases children with
  | nil => simp [reduceProjections] at hred
  | cons c rest =>
    unfold parseNonUnitProjections
    rw [hred]
    simp only [List.length_cons]
    rw [show duplicate np.data = some l from hdata]
    rw [promoteLoop_some]
    exact ⟨_, _, rfl, rfl⟩

/-- A child with a fit component whose data list is `[d1]`. -/
def promoteExChild0 : Child :=
  { projection := some (ProjectionComponent.make "c0_projection" []
      (some [⟨"w"⟩, ⟨"h"⟩]) (some [DataRef.sig ⟨"d1"⟩]))
    projectionNameMap := [("c0_projection", "c0_projection")] }

/-- A child with a fit component whose data list is empty. -/
def promoteExChild1 : Child :=
  { projection := some (ProjectionComponent.make "c1_projection" []
      (some [⟨"w"⟩, ⟨"h"⟩]) (some []))
    projectionNameMap := [("c1_projection", "c1_projection")] }

/-- A child with a fit component whose data list is `[d3]`. -/
def promoteExChild2 : Child :=
  { projection := some (ProjectionComponent.make "c2_projection" []
      (some [⟨"w"⟩, ⟨"h"⟩]) (some [DataRef.sig ⟨"d3"⟩]))
    projectionNameMap := [("c2_projection", "c2_projection")] }

/-- Counterexample for C2: children with fit lists `[d1]`, `[]`, `[d3]`
promote to the data list `[d1, d1, d3]` — the first child's entry appears
twice, not the claimed concatenation `[d1, d3]` of the children's lists. -/
theorem parseNonUnitProjections_promoted_data_counterexample :
    (match parseNonUnitProjections "parent_projection"
        [promoteExChild0, promoteExChild1, promoteExChild2] with
     | Except.ok (some comp, _) => comp.data
     | _ => none) =
      some [DataRef.sig ⟨"d1"⟩, DataRef.sig ⟨"d1"⟩, DataRef.sig ⟨"d3"⟩] ∧
    ([promoteExChild0, promoteExChild1, promoteExChild2].map fitDataOf).flatten =
      [DataRef.sig ⟨"d1"⟩, DataRef.sig ⟨"d3"⟩] ∧
    ([DataRef.sig ⟨"d1"⟩, DataRef.sig ⟨"d1"⟩, DataRef.sig ⟨"d3"⟩] : List DataRef) ≠
      [DataRef.sig ⟨"d1"⟩, DataRef.sig ⟨"d3"⟩] := by
  refine ⟨?_, ?_, ?_⟩ <;> decide

/-- Witness for C2 (amended) at the same composite: the promoted data list
is the representative's list `[d1]` followed by the children's concatenated
fit lists. -/
theorem parseNonUnitProjections_promoted_data_witness :
    ∃ comp ch,
      parseNonUnitProjections "parent_projection"
        [promoteExChild0, promoteExChild1, promoteExChild2] =
        Except.ok (some comp, ch) ∧
      comp.data = some ([DataRef.sig ⟨"d1"⟩] ++
        ([promoteExChild0, promoteExChild1, promoteExChild2].map fitDataOf).flatten) :=
  parseNonUnitProjections_promoted_data "parent_projection"
    [promoteExChild0, promoteExChild1, promoteExChild2]
    (ProjectionComponent.make "c0_projection" []
      (some [⟨"w"⟩, ⟨"h"⟩]) (some [DataRef.sig ⟨"d1"⟩]))
    [DataRef.sig ⟨"d1"⟩] (by decide) rfl

theorem nodup_foldl_dedupStep :
    ∀ (l acc : List String), acc.Nodup → (l.foldl dedupStep acc).Nodup := by
  intro l
  induction l with
  | nil => intro acc h; simpa using h
  | cons s rest ih =>
    intro acc h
    rw [List.foldl_cons]
    apply ih
    unfold dedupStep
    split
    · exact h
    · next hmem =>
      have hs : s ∉ acc := by simpa using hmem
      rw [List.nodup_append]
      exact ⟨h, List.nodup_singleton s, by
        intro a ha hb
        rw [List.mem_singleton] at hb
        exact hs (hb ▸ ha)⟩

theorem pairwise_congr_mem {α : Type} {R S : α → α → Prop} :
    ∀ {l : List α}, (∀ a ∈ l, ∀ b ∈ l, R a b → S a b) → l.Pairwise R → l.Pairwise S := by
  intro l
  induction l with
  | nil => intro _ _; exact List.Pairwise.nil
  | cons x xs ih =>
    intro h hp
    cases hp with
    | cons hx hxs =>
      exact List.Pairwise.cons
        (fun b hb => h x (by simp) b (by simp [hb]) (hx b hb))
        (ih (fun a ha b hb => h a (by simp [ha]) b (by simp [hb])) hxs)

theorem dedupSources_append_single (l : List String) (s : String) :
    dedupSources (l ++ [s]) = dedupStep (dedupSources l) s := by
  unfold dedupSources
  rw [List.foldl_append]
  rfl

theorem dedupSources_pairwise_firstIndex :
    ∀ l : List String,
    (dedupSources l).Pairwise (fun a b => l.indexOf a < l.indexOf b) := by
  intro l
  induction l using List.reverseRecOn with
  | nil => simp [dedupSources]
  | append_singleton xs s ih =>
    rw [dedupSources_append_single]
    unfold dedupStep
    split
    · next hmem =>
      refine pairwise_congr_mem ?_ ih
      intro a ha b hb hR
      rw [List.indexOf_append_of_mem ((mem_dedupSources xs a).mp ha),
        List.indexOf_append_of_mem ((mem_dedupSources xs b).mp hb)]
      exact hR
    · next hmem =>
      have hs' : s ∉ dedupSources xs := by simpa using hmem
      have hs : s ∉ xs := fun h => hs' ((mem_dedupSources xs s).mpr h)
      rw [List.pairwise_append]
      refine ⟨?_, by simp, ?_⟩
      · refine pairwise_congr_mem ?_ ih
        intro a ha b hb hR
        rw [List.indexOf_append_of_mem ((mem_dedupSources xs a).mp ha),
          List.indexOf_append_of_mem ((mem_dedupSources xs b).mp hb)]
        exact hR
      · intro a ha b hb
        rw [List.mem_singleton] at hb
        subst hb
        have ha' : a ∈ xs := (mem_dedupSources xs a).mp ha
        rw [List.indexOf_append_of_mem ha', List.indexOf_append_of_not_mem hs]
        have := List.indexOf_lt_length.mpr ha'
        omega

/-- Claim C10: in the assembled fit expression every distinct source
expression appears at most once, the distinct sources are exactly the
sources of the data list, they stand in order of first occurrence in that
list, and the emitted fit expression is formatted over this deduplicated
source list. -/
theorem assembled_fit_sources_deduplicated :
    ∀ (lookup : String → String) (l : List DataRef),
    (dedupSources (l.map (fitSource lookup))).Nodup ∧
    (∀ s, s ∈ dedupSources (l.map (fitSource lookup)) ↔ s ∈ l.map (fitSource lookup)) ∧
    (dedupSources (l.map (fitSource lookup))).Pairwise
      (fun a b =>
        (l.map (fitSource lookup)).indexOf a < (l.map (fitSource lookup)).indexOf b) ∧
    (∀ comp : ProjectionComponent, comp.merged = false → comp.data = some l →
      dedupSources (l.map (fitSource lookup)) ≠ [] →
      ∃ p, assembleProjectionForModel lookup (some comp) = Except.ok [p] ∧
        p.fit = some ⟨fitExpr (dedupSources (l.map (fitSource lookup)))⟩) := by
  intro lookup l
  refine ⟨nodup_foldl_dedupStep _ [] (List.nodup_nil),
    fun s => mem_dedupSources _ s,
    dedupSources_pairwise_firstIndex _, ?_⟩
  intro comp hm hd hne
  unfold assembleProjectionForModel
  simp only [hm, hd, Bool.false_eq_true, if_false]
  have hpos : 0 < (dedupSources (l.map (fitSource lookup))).length :=
    List.length_pos.mpr hne
  rw [if_neg (by omega)]
  exact ⟨_, rfl, rfl⟩

/-- A live fit component whose data list repeats its first source. -/
def dedupExComp : ProjectionComponent :=
  ProjectionComponent.make "view_projection" []
    (some [⟨"view_width"⟩, ⟨"view_height"⟩])
    (some [DataRef.str "a", DataRef.str "b", DataRef.str "a"])

/-- Witness for C10: a data list with a repeated source assembles with the
fit expression over the deduplicated source list. -/
theorem assembled_fit_sources_deduplicated_witness :
    ∃ p, assembleProjectionForModel id (some dedupExComp) = Except.ok [p] ∧
      p.fit = some ⟨fitExpr (dedupSources
        ([DataRef.str "a", DataRef.str "b", DataRef.str "a"].map (fitSource id)))⟩ :=
  (assembled_fit_sources_deduplicated id
      [DataRef.str "a", DataRef.str "b", DataRef.str "a"]).2.2.2
    dedupExComp rfl rfl (by decide)

/-- Reindex a promotion operation to the next child position. -/
def shiftOp : PromoteOp → PromoteOp
  | .renameOp i o n => .renameOp (i + 1) o n
  | .setMergedOp i => .setMergedOp (i + 1)

theorem promoteOpsFrom_succ (name : String) :
    ∀ (l : List Child) (n : Nat),
    promoteOpsFrom name (n + 1) l = (promoteOpsFrom name n l).map shiftOp := by
  intro l
  induction l with
  | nil => intro n; rfl
  | cons c rest ih =>
    intro n
    unfold promoteOpsFrom
    rw [List.map_append, ih]
    cases hc : c.projection <;> simp [shiftOp]

theorem applyOp_shiftOp (c : Child) (cs : List Child) (op : PromoteOp) :
    applyOp (c :: cs) (shiftOp op) = c :: applyOp cs op := by
  cases op <;> simp [applyOp, shiftOp, modifyAt]

theorem applyOps_map_shiftOp :
    ∀ (ops : List PromoteOp) (c : Child) (cs : List Child),
    applyOps (c :: cs) (ops.map shiftOp) = c :: applyOps cs ops := by
  intro ops
  induction ops with
  | nil => intro c cs; rfl
  | cons op rest ih =>
    intro c cs
    unfold applyOps at *
    rw [List.map_cons, List.foldl_cons, applyOp_shiftOp, List.foldl_cons]
    exact ih _ _

theorem applyOps_promoteOps (name : String) :
    ∀ children : List Child,
    applyOps children (promoteOps name children) = children.map (promoteChild name) := by
  intro children
  unfold promoteOps
  induction children with
  | nil => rfl
  | cons c rest ih =>
    show applyOps (c :: rest) (promoteOpsFrom name 0 (c :: rest)) = _
    unfold promoteOpsFrom
    rw [promoteOpsFrom_succ]
    cases hc : c.projection with
    | none =>
      rw [List.nil_append, applyOps_map_shiftOp, ih, List.map_cons]
      simp [promoteChild, hc]
    | some p =>
      unfold applyOps
      rw [List.cons_append, List.cons_append, List.nil_append, List.foldl_cons,
        List.foldl_cons]
      have h2 : applyOp (applyOp (c :: rest)
          (PromoteOp.renameOp 0 (jkey (p.get "name")) name)) (PromoteOp.setMergedOp 0) =
          promoteChild name c :: rest := by
        simp [applyOp, modifyAt, promoteChild, hc]
      rw [h2]
      have h3 := applyOps_map_shiftOp (promoteOpsFrom name 0 rest) (promoteChild name c) rest
      unfold applyOps at h3
      rw [h3]
      unfold applyOps at ih
      rw [ih, List.map_cons]

theorem promoteOpsFrom_rename_before_merged (name : String) :
    ∀ (l : List Child) (n i k : Nat),
    (promoteOpsFrom name n l)[k]? = some (PromoteOp.setMergedOp i) →
    ∃ j, j < k ∧ ∃ old,
      (promoteOpsFrom name n l)[j]? = some (PromoteOp.renameOp i old name) := by
  intro l
  induction l with
  | nil => intro n i k h; simp [promoteOpsFrom] at h
  | cons c rest ih =>
    intro n i k h
    unfold promoteOpsFrom at h ⊢
    cases hc : c.projection with
    | none =>
      simp only [hc, List.nil_append] at h ⊢
      exact ih (n + 1) i k h
    | some p =>
      simp only [hc, List.cons_append, List.nil_append] at h ⊢
      match k with
      | 0 => simp at h
      | 1 =>
        have hin : n = i := by simpa using h
        exact ⟨0, by omega, jkey (p.get "name"), by simp [← hin]⟩
      | Nat.succ (Nat.succ k') =>
        rw [List.getElem?_cons_succ, List.getElem?_cons_succ] at h
        obtain ⟨j, hj, old, hjeq⟩ := ih (n + 1) i k' h
        exact ⟨j + 2, by omega, old,
          by rw [List.getElem?_cons_succ, List.getElem?_cons_succ]; exact hjeq⟩

theorem promoteLoop_ok_children (name : String) :
    ∀ (children : List Child) (d : Option (List DataRef))
      (d' : Option (List DataRef)) (ch : List Child),
    promoteLoop name d children = Except.ok (d', ch) →
    ch = children.map (promoteChild name) := by
  intro children
  induction children with
  | nil =>
    intro d d' ch h
    simp [promoteLoop] at h
    rw [List.map_nil]
    exact h.2
  | cons c rest ih =>
    intro d d' ch h
    unfold promoteLoop at h
    cases hc : c.projection with
    | none =>
      simp only [hc] at h
      cases hrec : promoteLoop name d rest with
      | error e => rw [hrec] at h; simp [Except.map] at h
      | ok r =>
        rw [hrec] at h
        simp only [Except.map, Except.ok.injEq, Prod.mk.injEq] at h
        rw [List.map_cons, ← h.2, ih d r.1 r.2 (by rw [hrec])]
        simp [promoteChild, hc]
    | some p =>
      simp only [hc] at h
      cases hstep : pushFitData p d with
      | error e => simp only [hstep] at h; exact Except.noConfusion h
      | ok d2 =>
        simp only [hstep] at h
        cases hrec : promoteLoop name d2 rest with
        | error e => rw [hrec] at h; simp [Except.map] at h
        | ok r =>
          rw [hrec] at h
          simp only [Except.map, Except.ok.injEq, Prod.mk.injEq] at h
          rw [List.map_cons, ← h.2, ih d2 r.1 r.2 (by rw [hrec])]

/-- Claim C5: in the promotion trace every tombstoning of a child is
strictly preceded by that child's rename to the composite name; the
children a successful composite parse returns are exactly the result of
running the promotion trace; and assembly emits nothing for a component
whose merged flag is set — so assembled output never references a
tombstoned name. -/
theorem promotion_renames_before_tombstoning :
    (∀ (name : String) (children : List Child) (i k : Nat),
      (promoteOps name children)[k]? = some (PromoteOp.setMergedOp i) →
      ∃ j, j < k ∧ ∃ old,
        (promoteOps name children)[j]? = some (PromoteOp.renameOp i old name)) ∧
    (∀ (name : String) (children : List Child) (comp : ProjectionComponent)
      (ch : List Child),
      parseNonUnitProjections name children = Except.ok (some comp, ch) →
      ch = applyOps children (promoteOps name children)) ∧
    (∀ (lookup : String → String) (comp : ProjectionComponent),
      comp.merged = true →
      assembleProjectionForModel lookup (some comp) = Except.ok []) := by
  refine ⟨?_, ?_, ?_⟩
  · intro name children i k h
    exact promoteOpsFrom_rename_before_merged name children 0 i k h
  · intro name children comp ch h
    rw [applyOps_promoteOps]
    cases children with
    | nil => simp [parseNonUnitProjections] at h
    | cons c rest =>
      unfold parseNonUnitProjections at h
      rw [if_neg (by simp)] at h
      split at h
      · split at h
        · exact Except.noConfusion h
        · next d0 ch0 hloop =>
          simp only [Except.ok.injEq, Prod.mk.injEq] at h
          rw [← h.2]
          exact promoteLoop_ok_children name (c :: rest) _ d0 ch0 hloop
      · simp at h
  · intro lookup comp hm
    unfold assembleProjectionForModel
    simp [hm]

/-- A child carrying a blank live component, for the promotion trace
witness. -/
def promoteWChild : Child :=
  { projection := some (ProjectionComponent.make "cw_projection" [] none none)
    projectionNameMap := [("cw_projection", "cw_projection")] }

/-- Witness for C5: in the trace for one child, the tombstoning at position
1 is preceded by the rename at position 0. -/
theorem promotion_renames_before_tombstoning_witness :
    ∃ j, j < 1 ∧ ∃ old,
      (promoteOps "pw_projection" [promoteWChild])[j]? =
        some (PromoteOp.renameOp 0 old "pw_projection") :=
  promotion_renames_before_tombstoning.1 "pw_projection" [promoteWChild] 0 1 (by decide)

/-- Claim C8, amended: every node `parseAll` constructs stores the
projection name the name scope yields at construction time, and `assemble`
emits exactly that stored name — the assembled descriptor is independent of
any later state of the name scope, so a rename performed after construction
is not reflected. -/
theorem geoPointNode_name_fixed_at_construction :
    ∀ (m : MState) (enc : GeoPointEncoding) (n : GeoPointNode),
    n ∈ GeoPointNode.parseAllNodes m enc →
    ∃ s, projectionNameLookup m = some s ∧ n.assemble.projection = s := by
  intro m enc n h
  unfold GeoPointNode.parseAllNodes at h
  cases hl : projectionNameLookup m with
  | none => rw [hl] at h; simp at h
  | some projName =>
    simp only [hl] at h
    by_cases he : projName = ""
    · rw [if_pos he] at h; simp at h
    · rw [if_neg he] at h
      refine ⟨projName, rfl, ?_⟩
      have hone : ∀ (pair : List (Option GeoFieldRef)) (names : List String),
          n ∈ (if (pair.headD none).isSome || ((pair.getD 1 none).isSome) then
            [GeoPointNode.mk projName pair names] else []) →
          n.assemble.projection = projName := by
        intro pair names h1
        split at h1
        · rw [List.mem_singleton] at h1; subst h1; rfl
        · exact absurd h1 (List.not_mem_nil n)
      simp only [List.mem_append] at h
      rcases h with h1 | h1
      · exact hone _ _ h1
      · exact hone _ _ h1

/-- The model state a geopoint node is constructed under: a live unit
component named through the identity-seeded scope. -/
def geoPointExState : MState :=
  { name := "child"
    projection := some (ProjectionComponent.make "child_projection" [] none none)
    projectionNameMap := [("child_projection", "child_projection")] }

/-- The same model state after the merge engine tombstones the component
and renames its reference to the composite name. -/
def geoPointExStateRenamed : MState :=
  { geoPointExState with
    projection := geoPointExState.projection.map (fun p => { p with merged := true })
    projectionNameMap :=
      nmRename geoPointExState.projectionNameMap "child_projection" "parent_projection" }

/-- The encoding the geopoint example is parsed from: a longitude field. -/
def geoPointExEncoding : GeoPointEncoding :=
  { longitude := ChannelDef.fieldDef "lon"
    latitude := ChannelDef.absent
    longitude2 := ChannelDef.absent
    latitude2 := ChannelDef.absent }

/-- Counterexample for C8: a node constructed before a rename assembles to
the construction-time name, while an assembly-time lookup in the renamed
scope yields the new name — the assembled descriptor does not reflect the
rename, so the name is not resolved at assembly time. -/
theorem geoPointNode_assembly_lookup_counterexample :
    (GeoPointNode.parseAllNodes geoPointExState geoPointExEncoding).map
        (fun n => n.assemble.projection) = ["child_projection"] ∧
    projectionNameLookup geoPointExStateRenamed = some "parent_projection" ∧
    ("child_projection" : String) ≠ "parent_projection" := by
  refine ⟨?_, ?_, ?_⟩ <;> decide

/-- Witness for C8 (amended) at the example state: the constructed node
assembles to the name the scope yielded at construction. -/
theorem geoPointNode_name_fixed_at_construction_witness :
    ∃ s, projectionNameLookup geoPointExState = some s ∧
      (GeoPointNode.mk "child_projection"
        [some (GeoFieldRef.fieldName "lon"), none]
        ["child_x", "child_y"]).assemble.projection = s :=
  geoPointNode_name_fixed_at_construction geoPointExState geoPointExEncoding
    (GeoPointNode.mk "child_projection"
      [some (GeoFieldRef.fieldName "lon"), none] ["child_x", "child_y"])
    (by decide)

end VegaLite
